import Mathlib

/-!
# futures-crypto: stream cipher / hash adapters, verified model

Shallow embedding of the `futures-crypto` crate (src/cipher.rs, src/hash.rs,
src/random.rs, src/error.rs). Streams in `futures 0.1` expose
`poll() -> Result<Async<Option<Item>>, Error>`; we model a stream as a state
type together with a deterministic `poll` step returning the new state and a
poll result. The OpenSSL transform and digest engines are external
collaborators (spec section 6); they are modelled abstractly as state machines
with fallible `update`/`finalize` (resp. `update`/`finish`) operations, and
claims about them are stated relative to the engine interface contract.
Bytes are modelled as `Nat` (their numeric value never matters here; chunks
are `List Nat`).
-/

namespace FuturesCrypto

/-- Result of one `poll` call of a futures 0.1 `Stream`:
`notReady` is `Ok(Async::NotReady)`, `ready none` is `Ok(Async::Ready(None))`
(end-of-data), `ready (some c)` is `Ok(Async::Ready(Some(c)))`, and `error`
is `Err(_)` (the crate error wraps an opaque `openssl::ErrorStack`, so it
carries no data in the model). -/
inductive PollRes (ι : Type) where
  | notReady : PollRes ι
  | ready : Option ι → PollRes ι
  | error : PollRes ι
deriving DecidableEq, Repr

/-- A pull-based stream: a deterministic step function from the stream state
to the next state and a poll result. -/
structure StreamM (σ ι : Type) where
  poll : σ → σ × PollRes ι

/-- One scripted event of a test inner producer. -/
inductive Ev (ι : Type) where
  | notReady : Ev ι
  | chunk : ι → Ev ι
  | fail : Ev ι
deriving DecidableEq, Repr

/-- Inner producer driven by a script of events; an exhausted script signals
end-of-data on every poll. -/
def scriptStream (ι : Type) : StreamM (List (Ev ι)) ι where
  poll s :=
    match s with
    | [] => ([], .ready none)
    | .notReady :: rest => (rest, .notReady)
    | .chunk c :: rest => (rest, .ready (some c))
    | .fail :: rest => (rest, .error)

/-- Abstract transform engine (the external `openssl::symm::Crypter`,
spec section 6): a state type `γ` with fallible `update` and `finalize`
steps, each returning the next engine state and the bytes written, plus the
block-size bound used for output buffer sizing. `none` models an engine
error. -/
structure Engine (γ : Type) where
  blockSize : Nat
  update : γ → List Nat → Option (γ × List Nat)
  finalize : γ → Option (γ × List Nat)

/-- State of `CipherStream` (src/cipher.rs lines 103-108): the inner stream
state, the `finalized` flag, and the live crypter state. -/
structure CipherSt (γ σ : Type) where
  inner : σ
  finalized : Bool
  crypter : γ
deriving DecidableEq, Repr

/-- `CipherStream::poll` (src/cipher.rs lines 125-152). If `finalized`,
immediately return end-of-data. Otherwise poll the inner stream:
an inner error propagates (the `?`), not-ready propagates, end-of-data sets
`finalized` (before invoking the engine) and then finalizes the crypter
into a fresh output buffer, and a chunk is fed through `Crypter::update`. -/
def cipherStream {γ σ : Type} (E : Engine γ) (S : StreamM σ (List Nat)) :
    StreamM (CipherSt γ σ) (List Nat) where
  poll s :=
    if s.finalized then (s, .ready none)
    else
      match S.poll s.inner with
      | (s', .error) => (⟨s', s.finalized, s.crypter⟩, .error)
      | (s', .notReady) => (⟨s', s.finalized, s.crypter⟩, .notReady)
      | (s', .ready none) =>
          match E.finalize s.crypter with
          | none => (⟨s', true, s.crypter⟩, .error)
          | some (c', out) => (⟨s', true, c'⟩, .ready (some out))
      | (s', .ready (some item)) =>
          match E.update s.crypter item with
          | none => (⟨s', s.finalized, s.crypter⟩, .error)
          | some (c', out) => (⟨s', s.finalized, c'⟩, .ready (some out))

/-- `EmitsTo S s cs t`: driving stream `S` from state `s` yields exactly the
chunks `cs` (interleaved with arbitrarily many not-ready polls) and then
signals end-of-data, leaving the stream in state `t`. -/
inductive EmitsTo {σ ι : Type} (S : StreamM σ ι) : σ → List ι → σ → Prop where
  | done : ∀ {s s' : σ}, S.poll s = (s', .ready none) → EmitsTo S s [] s'
  | step : ∀ {s s' t : σ} {c : ι} {cs : List ι},
      S.poll s = (s', .ready (some c)) → EmitsTo S s' cs t → EmitsTo S s (c :: cs) t
  | wait : ∀ {s s' t : σ} {cs : List ι},
      S.poll s = (s', .notReady) → EmitsTo S s' cs t → EmitsTo S s cs t

/-- Feed a list of chunks, one `update` call each, through the engine;
returns the final engine state and the list of output chunks (one output,
possibly empty, per input chunk), or `none` on the first engine error. -/
def Engine.processChunks {γ : Type} (E : Engine γ) :
    γ → List (List Nat) → Option (γ × List (List Nat))
  | c, [] => some (c, [])
  | c, chunk :: rest =>
      (E.update c chunk).bind fun p =>
        (E.processChunks p.1 rest).map fun q => (q.1, p.2 :: q.2)

/-- Total engine transform of a chunk sequence: all `update` outputs followed
by the `finalize` output, concatenated; `none` if any engine call fails. -/
def Engine.processAll {γ : Type} (E : Engine γ) (c : γ) (chunks : List (List Nat)) :
    Option (List Nat) :=
  (E.processChunks c chunks).bind fun p =>
    (E.finalize p.1).map fun q => (p.2.flatten ++ q.2)

/-- The engine interface contract used for decryption (spec sections 6 and 8):
the total transform depends only on the concatenation of the input chunks,
not on chunk boundaries. -/
def ChunkInvariant {γ : Type} (E : Engine γ) (c : γ) : Prop :=
  ∀ ps qs : List (List Nat), ps.flatten = qs.flatten → E.processAll c ps = E.processAll c qs

/-- The result of the `(n+1)`-th consecutive pull of a stream started in
state `s`. -/
def pollIterate {σ ι : Type} (S : StreamM σ ι) : Nat → σ → σ × PollRes ι
  | 0, s => S.poll s
  | n + 1, s => pollIterate S n (S.poll s).1

/-- The identity engine: a trivial instance of the engine interface
(update emits its input unchanged, finalize emits nothing), used to witness
theorems that are parametric in the engine. -/
def idEngine : Engine Unit where
  blockSize := 1
  update := fun _ c => some ((), c)
  finalize := fun _ => some ((), [])

/-- An engine whose finalize call always fails, used to witness the
finalize-error behavior of the adapter. -/
def failFinEngine : Engine Unit where
  blockSize := 1
  update := fun _ c => some ((), c)
  finalize := fun _ => none

/-- Cipher algorithm identifiers (src/cipher.rs lines 158-188; the hidden
`_Donotmatch` variant is unconstructible and omitted). -/
inductive Algorithm where
  | aes128Ecb | aes128Cbc | aes128Ctr | aes128Cfb1 | aes128Cfb128 | aes128Cfb8
  | aes256Ecb | aes256Cbc | aes256Ctr | aes256Cfb1 | aes256Cfb128 | aes256Cfb8
deriving DecidableEq, Repr

/-- Required key length per algorithm. The source delegates to the external
OpenSSL cipher object; these are the AES key sizes (16 bytes for AES-128,
32 bytes for AES-256), consistent with the `MAX_KEY_LEN` bound in the
source and spec section 8. -/
def Algorithm.key_len : Algorithm → Nat
  | .aes128Ecb | .aes128Cbc | .aes128Ctr | .aes128Cfb1 | .aes128Cfb128 | .aes128Cfb8 => 16
  | .aes256Ecb | .aes256Cbc | .aes256Ctr | .aes256Cfb1 | .aes256Cfb128 | .aes256Cfb8 => 32

/-- Required IV length per algorithm. The source delegates to the external
OpenSSL cipher object; ECB mode needs no IV, all other listed modes use a
16-byte IV, consistent with the `MAX_IV_LEN` bound in the source and spec
section 8. -/
def Algorithm.iv_len : Algorithm → Option Nat
  | .aes128Ecb | .aes256Ecb => none
  | _ => some 16

/-- `MAX_KEY_LEN` (src/cipher.rs line 156). -/
def MAX_KEY_LEN : Nat := 32

/-- `MAX_IV_LEN` (src/cipher.rs line 155). -/
def MAX_IV_LEN : Nat := 16

/-- Cipher direction (`openssl::symm::Mode`). -/
inductive Mode where
  | encrypt
  | decrypt
deriving DecidableEq, Repr

/-- `Config` (src/cipher.rs lines 12-17): an algorithm plus fixed-size key
and IV buffers (`[u8; MAX_KEY_LEN]`, `[u8; MAX_IV_LEN]`), modelled as byte
lists. -/
structure Config where
  algo : Algorithm
  key : List Nat
  iv : List Nat
deriving DecidableEq, Repr

/-- `Config::new` (src/cipher.rs lines 21-25): zeroed key and IV buffers. -/
def Config.new (algo : Algorithm) : Config :=
  ⟨algo, List.replicate MAX_KEY_LEN 0, List.replicate MAX_IV_LEN 0⟩

/-- `Config::stream` (src/cipher.rs lines 46-54). `crypterNew` stands for the
external `openssl::symm::Crypter::new`, which may reject the key/IV material
(`Except.error`). The key and IV slices passed are the prefixes of the
config buffers of the algorithm's declared lengths. On failure the error
alone is returned; the `inner` value was moved into this function and does
not appear in the error result. -/
def Config.stream {γ σ : Type}
    (crypterNew : Algorithm → Mode → List Nat → Option (List Nat) → Except Unit γ)
    (cfg : Config) (inner : σ) (mode : Mode) : Except Unit (CipherSt γ σ) :=
  match crypterNew cfg.algo mode (cfg.key.take cfg.algo.key_len)
      (cfg.algo.iv_len.map fun n => cfg.iv.take n) with
  | .error e => .error e
  | .ok c => .ok ⟨inner, false, c⟩

/-- `Encrypt::new` (src/cipher.rs lines 61-66): `Config::stream` in encrypt
mode (the `Encrypt` newtype wrapper adds nothing to the state). -/
def Encrypt.new {γ σ : Type}
    (crypterNew : Algorithm → Mode → List Nat → Option (List Nat) → Except Unit γ)
    (cfg : Config) (inner : σ) : Except Unit (CipherSt γ σ) :=
  Config.stream crypterNew cfg inner Mode.encrypt

/-- A `Crypter::new` stand-in that rejects every configuration, modelling an
engine that rejects the key/IV material. -/
def failCrypterNew : Algorithm → Mode → List Nat → Option (List Nat) → Except Unit Unit :=
  fun _ _ _ _ => .error ()

/-- Abstract digest engine (the external `openssl::hash::Hasher`, spec
section 6): fallible `update`, and `finish` which returns the digest bytes
together with the reset accumulator state (`Hasher::finish2` resets the
hasher). `none` models an engine error. -/
structure HEngine (η : Type) where
  update : η → List Nat → Option η
  finish : η → Option (List Nat × η)

/-- State of `HashInner` (src/hash.rs lines 129-133): the inner stream state
and the live hasher state (the algorithm tag is carried by the digest value
and plays no role in the dynamics, so it is omitted here). -/
structure HashSt (η σ : Type) where
  inner : σ
  hasher : η

/-- `HashInner::poll` (src/hash.rs lines 171-180): forward the inner result
unchanged; on a yielded chunk, first feed it to `Hasher::update` (an update
error becomes the poll's error). -/
def hashStream {η σ : Type} (H : HEngine η) (S : StreamM σ (List Nat)) :
    StreamM (HashSt η σ) (List Nat) where
  poll s :=
    match S.poll s.inner with
    | (s', .error) => (⟨s', s.hasher⟩, .error)
    | (s', .notReady) => (⟨s', s.hasher⟩, .notReady)
    | (s', .ready none) => (⟨s', s.hasher⟩, .ready none)
    | (s', .ready (some item)) =>
        match H.update s.hasher item with
        | none => (⟨s', s.hasher⟩, .error)
        | some h' => (⟨s', h'⟩, .ready (some item))

/-- Feed a list of chunks through `HEngine.update`; `none` on the first
engine error. -/
def HEngine.foldUpdate {η : Type} (H : HEngine η) : η → List (List Nat) → Option η
  | h, [] => some h
  | h, c :: cs => (H.update h c).bind fun h' => H.foldUpdate h' cs

/-- `HashInner::digest` / `Hash::digest` (src/hash.rs lines 150-157):
finalize the accumulation, returning the digest bytes and the reset hasher
state. -/
def hashDigest {η σ : Type} (H : HEngine η) (st : HashSt η σ) : Option (List Nat × η) :=
  H.finish st.hasher

/-- The one-shot completion slot of a split pair
(`futures::sync::oneshot::channel`): it is `pending` until either the
sending half is dropped without sending (`canceled`) or a value is sent
(`sent`). -/
inductive Slot (α : Type) where
  | pending : Slot α
  | canceled : Slot α
  | sent : α → Slot α
deriving DecidableEq, Repr

/-- Result of one `poll` call of a futures 0.1 `Future`: `Ok(NotReady)`,
`Ok(Ready(a))`, or `Err(_)`. -/
inductive FPoll (α : Type) where
  | notReady : FPoll α
  | ready : α → FPoll α
  | error : FPoll α
deriving DecidableEq, Repr

/-- `SplitDigest::poll` (src/hash.rs lines 82-88), reading the shared slot:
a pending channel is not ready; a canceled channel (`Err(Canceled)` from the
receiver) resolves successfully with `none`; a sent `Ok` digest resolves
with `some digest`; a sent `Err` is surfaced as the future's error. -/
def splitDigestPoll (slot : Slot (Except Unit (List Nat))) : FPoll (Option (List Nat)) :=
  match slot with
  | .pending => .notReady
  | .canceled => .ready none
  | .sent (.ok d) => .ready (some d)
  | .sent (.error _) => .error

/-- State of `SplitHash` (src/hash.rs lines 95-98) together with the shared
slot it writes: the `HashInner` state, whether the oneshot sender is still
held (`sender = true` iff `self.sender` is `Some`), and the slot contents.
Invariant maintained by the dynamics: while `sender = true` nothing has been
sent, so the slot is `pending`. -/
structure SplitHashSt (η σ : Type) where
  inner : HashSt η σ
  sender : Bool
  slot : Slot (Except Unit (List Nat))

/-- `SplitHash::poll` (src/hash.rs lines 114-126): forward the inner
`HashInner` poll; on end-of-data, if the sender is still held, take it and
send the result of `HashInner::digest` (success or failure) into the slot,
then still signal end-of-data. On digest success the hasher is reset by
`finish2`; on digest failure the hasher state is left as it was. -/
def splitHashStream {η σ : Type} (H : HEngine η) (S : StreamM σ (List Nat)) :
    StreamM (SplitHashSt η σ) (List Nat) where
  poll s :=
    match (hashStream H S).poll s.inner with
    | (i2, .error) => (⟨i2, s.sender, s.slot⟩, .error)
    | (i2, .notReady) => (⟨i2, s.sender, s.slot⟩, .notReady)
    | (i2, .ready (some item)) => (⟨i2, s.sender, s.slot⟩, .ready (some item))
    | (i2, .ready none) =>
        if s.sender then
          match H.finish i2.hasher with
          | some (d, hr) => (⟨⟨i2.inner, hr⟩, false, .sent (.ok d)⟩, .ready none)
          | none => (⟨i2, false, .sent (.error ())⟩, .ready none)
        else (⟨i2, s.sender, s.slot⟩, .ready none)

/-- Dropping the computing half: if the oneshot sender is still held (nothing
was sent yet), dropping it cancels the channel; otherwise the slot keeps
whatever was sent. -/
def dropSplitHash {η σ : Type} (s : SplitHashSt η σ) : Slot (Except Unit (List Nat)) :=
  if s.sender then Slot.canceled else s.slot

/-- The terminal state of a drained `SplitHash`: sender consumed, slot
holding the digest result, hasher reset on success. -/
def splitHashFinal {η σ : Type} (H : HEngine η) (t : σ) (h' : η) : SplitHashSt η σ :=
  match H.finish h' with
  | some (d, hr) => ⟨⟨t, hr⟩, false, Slot.sent (Except.ok d)⟩
  | none => ⟨⟨t, h'⟩, false, Slot.sent (Except.error ())⟩

/-- The accumulating digest engine: the hasher state is the list of all
bytes fed so far, `finish` returns them as the digest and resets the
accumulator. A trivial instance of the digest engine interface, used to
witness theorems that are parametric in the engine. -/
def accHEngine : HEngine (List Nat) where
  update := fun h c => some (h ++ c)
  finish := fun h => some (h, [])

/-- A digest engine whose `finish` always fails, used to witness the
digest-retrieval-failure path. -/
def failFinHEngine : HEngine (List Nat) where
  update := fun h c => some (h ++ c)
  finish := fun _ => none

/-- State of the `RandomBytes` future (src/random.rs lines 48-60): `idle`
before the task is submitted; `busy` once submitted, holding the spawned
task's result (the outcome of `TaskInner::poll`, deterministic given the
random source). -/
inductive RState where
  | idle : RState
  | busy : Except Unit (List Nat) → RState

/-- The `RandomBytes` future (src/random.rs lines 54-60): requested byte
count plus submission state (the executor handle it also carries is modelled
by the explicit pool log threaded through `poll`). -/
structure RandomBytes where
  size : Nat
  state : RState

/-- `Generator::random_bytes` (src/random.rs lines 39-45): a pure
constructor; the returned future is `idle`, and no interaction with the
worker pool happens here (the pool log is not even an input). -/
def Generator.random_bytes (size : Nat) : RandomBytes :=
  ⟨size, RState.idle⟩

/-- `TaskInner::poll` (src/random.rs lines 124-137): allocate a buffer of
`size` bytes, fill it in place via the external random source
(`openssl::rand::rand_bytes`, modelled by `fill`, which returns the
overwritten buffer or fails), and take the first `size` bytes
(`advance_mut(self.size)`). -/
def taskInnerPoll (fill : List Nat → Option (List Nat)) (size : Nat) :
    Except Unit (List Nat) :=
  match fill (List.replicate size 0) with
  | none => .error ()
  | some buf => .ok (buf.take size)

/-- The worker pool log: the sizes of the one-shot tasks submitted so far. -/
structure RWorld where
  submitted : List Nat
deriving DecidableEq, Repr

/-- `RandomBytes::poll` (src/random.rs lines 62-77): when `busy`, poll the
spawn handle (here: the completed task's result); when `idle`, submit the
one-shot task to the pool (recorded in the log), transition to `busy`, and
poll again — the source does this by literal self-recursion into the `busy`
arm. The pool is modelled as having run the task by the time the handle is
polled, an adequate schedule for the properties stated here. -/
def RandomBytes.poll (fill : List Nat → Option (List Nat)) (rb : RandomBytes)
    (w : RWorld) : RandomBytes × RWorld × FPoll (List Nat) :=
  match rb.state with
  | .busy r =>
      (rb, w, match r with | .ok bs => .ready bs | .error _ => .error)
  | .idle =>
      let r := taskInnerPoll fill rb.size
      (⟨rb.size, .busy r⟩, ⟨w.submitted ++ [rb.size]⟩,
        match r with | .ok bs => .ready bs | .error _ => .error)

end FuturesCrypto

namespace FuturesCrypto

/-- Helper: the script stream emits exactly its scripted chunks. -/
theorem scriptStream_emitsTo {ι : Type} (cs : List ι) :
    EmitsTo (scriptStream ι) (cs.map Ev.chunk) cs [] := by
  induction cs with
  | nil => exact EmitsTo.done rfl
  | cons c rest ih => exact EmitsTo.step rfl ih

/-- Helper: if the inner stream emits `cs` and then ends, and every engine
call succeeds, the cipher adapter emits the per-chunk `update` outputs
followed by the `finalize` output, then ends, finalized. -/
theorem cipherStream_emitsTo {γ σ : Type} {S : StreamM σ (List Nat)} {E : Engine γ}
    {s t : σ} {cs : List (List Nat)} {c c' cf : γ} {outs : List (List Nat)}
    {fout : List Nat}
    (h : EmitsTo S s cs t)
    (hp : E.processChunks c cs = some (c', outs))
    (hf : E.finalize c' = some (cf, fout)) :
    EmitsTo (cipherStream E S) ⟨s, false, c⟩ (outs ++ [fout]) ⟨t, true, cf⟩ := by
  induction h generalizing c outs with
  | done hpoll =>
      rename_i s0 s1
      simp only [Engine.processChunks, Option.some.injEq, Prod.mk.injEq] at hp
      obtain ⟨hc, houts⟩ := hp
      subst hc
      subst houts
      have h1 : (cipherStream E S).poll ⟨s0, false, c⟩ =
          (⟨s1, true, cf⟩, .ready (some fout)) := by
        simp [cipherStream, hpoll, hf]
      have h2 : (cipherStream E S).poll ⟨s1, true, cf⟩ =
          (⟨s1, true, cf⟩, .ready none) := by
        simp [cipherStream]
      exact EmitsTo.step h1 (EmitsTo.done h2)
  | step hpoll hrec ih =>
      rename_i s0 s1 t0 ch0 cs0
      simp only [Engine.processChunks, Option.bind_eq_some, Option.map_eq_some'] at hp
      obtain ⟨⟨cu, out⟩, hu, ⟨c2, outs2⟩, hrest, heq⟩ := hp
      simp only [Prod.mk.injEq] at heq
      obtain ⟨hc2, houts⟩ := heq
      subst hc2
      subst houts
      have h1 : (cipherStream E S).poll ⟨s0, false, c⟩ =
          (⟨s1, false, cu⟩, .ready (some out)) := by
        simp [cipherStream, hpoll, hu]
      exact EmitsTo.step h1 (ih hrest)
  | wait hpoll hrec ih =>
      rename_i s0 s1 t0 cs0
      have h1 : (cipherStream E S).poll ⟨s0, false, c⟩ =
          (⟨s1, false, c⟩, .notReady) := by
        simp [cipherStream, hpoll]
      exact EmitsTo.wait h1 (ih hp)

/-- Helper: a finalized cipher stream state is a fixed point, and every
pull from it, however late, answers end-of-data. -/
theorem finalized_pollIterate {γ σ : Type} (E : Engine γ) (S : StreamM σ (List Nat))
    (s : CipherSt γ σ) (h : s.finalized = true) (n : Nat) :
    pollIterate (cipherStream E S) n s = (s, PollRes.ready none) := by
  induction n with
  | zero => simp [pollIterate, cipherStream, h]
  | succ n ih =>
      have h1 : ((cipherStream E S).poll s).1 = s := by simp [cipherStream, h]
      simp [pollIterate, h1, ih]

/-- Helper: the identity engine processes any chunk list to itself. -/
theorem idEngine_processChunks (cs : List (List Nat)) :
    idEngine.processChunks () cs = some ((), cs) := by
  induction cs with
  | nil => rfl
  | cons c rest ih =>
      have hu : idEngine.update () c = some ((), c) := rfl
      simp [Engine.processChunks, hu, ih]

/-- Helper: the identity engine's total transform is concatenation. -/
theorem idEngine_processAll (cs : List (List Nat)) :
    idEngine.processAll () cs = some cs.flatten := by
  have hf : idEngine.finalize () = some ((), []) := rfl
  simp [Engine.processAll, idEngine_processChunks, hf]

/-- Helper: the identity engine is chunking-invariant. -/
theorem idEngine_chunkInvariant : ChunkInvariant idEngine () := by
  intro ps qs h
  simp [idEngine_processAll, h]

/-- Helper: if the inner stream emits `cs` and every hasher update succeeds,
the digest adapter emits exactly `cs` with the hasher having absorbed all of
them. -/
theorem hashStream_emitsTo {η σ : Type} {H : HEngine η} {S : StreamM σ (List Nat)}
    {s t : σ} {cs : List (List Nat)} {h h' : η}
    (he : EmitsTo S s cs t)
    (hu : H.foldUpdate h cs = some h') :
    EmitsTo (hashStream H S) ⟨s, h⟩ cs ⟨t, h'⟩ := by
  induction he generalizing h with
  | done hpoll =>
      rename_i s0 s1
      simp only [HEngine.foldUpdate, Option.some.injEq] at hu
      subst hu
      have h1 : (hashStream H S).poll ⟨s0, h⟩ = (⟨s1, h⟩, .ready none) := by
        simp [hashStream, hpoll]
      exact EmitsTo.done h1
  | step hpoll hrec ih =>
      rename_i s0 s1 t0 ch0 cs0
      simp only [HEngine.foldUpdate, Option.bind_eq_some] at hu
      obtain ⟨h2, hup, hrest⟩ := hu
      have h1 : (hashStream H S).poll ⟨s0, h⟩ = (⟨s1, h2⟩, .ready (some ch0)) := by
        simp [hashStream, hpoll, hup]
      exact EmitsTo.step h1 (ih hrest)
  | wait hpoll hrec ih =>
      rename_i s0 s1 t0 cs0
      have h1 : (hashStream H S).poll ⟨s0, h⟩ = (⟨s1, h⟩, .notReady) := by
        simp [hashStream, hpoll]
      exact EmitsTo.wait h1 (ih hu)

/-- Helper: if the inner stream emits `cs` and every hasher update succeeds,
the computing half of a split pair emits exactly `cs` and, on its
end-of-data poll, consumes the sender and delivers the digest result into
the slot. -/
theorem splitHashStream_emitsTo {η σ : Type} {H : HEngine η} {S : StreamM σ (List Nat)}
    {s t : σ} {cs : List (List Nat)} {h h' : η}
    (he : EmitsTo S s cs t)
    (hu : H.foldUpdate h cs = some h') :
    EmitsTo (splitHashStream H S) ⟨⟨s, h⟩, true, Slot.pending⟩ cs (splitHashFinal H t h') := by
  induction he generalizing h with
  | done hpoll =>
      rename_i s0 s1
      simp only [HEngine.foldUpdate, Option.some.injEq] at hu
      subst hu
      have hh : (hashStream H S).poll ⟨s0, h⟩ = (⟨s1, h⟩, .ready none) := by
        simp [hashStream, hpoll]
      cases hfin : H.finish h with
      | none =>
          have h1 : (splitHashStream H S).poll ⟨⟨s0, h⟩, true, Slot.pending⟩ =
              (splitHashFinal H s1 h, .ready none) := by
            simp [splitHashStream, hh, hfin, splitHashFinal]
          exact EmitsTo.done h1
      | some p =>
          obtain ⟨d, hr⟩ := p
          have h1 : (splitHashStream H S).poll ⟨⟨s0, h⟩, true, Slot.pending⟩ =
              (splitHashFinal H s1 h, .ready none) := by
            simp [splitHashStream, hh, hfin, splitHashFinal]
          exact EmitsTo.done h1
  | step hpoll hrec ih =>
      rename_i s0 s1 t0 ch0 cs0
      simp only [HEngine.foldUpdate, Option.bind_eq_some] at hu
      obtain ⟨h2, hup, hrest⟩ := hu
      have hh : (hashStream H S).poll ⟨s0, h⟩ = (⟨s1, h2⟩, .ready (some ch0)) := by
        simp [hashStream, hpoll, hup]
      have h1 : (splitHashStream H S).poll ⟨⟨s0, h⟩, true, Slot.pending⟩ =
          (⟨⟨s1, h2⟩, true, Slot.pending⟩, .ready (some ch0)) := by
        simp [splitHashStream, hh]
      exact EmitsTo.step h1 (ih hrest)
  | wait hpoll hrec ih =>
      rename_i s0 s1 t0 cs0
      have hh : (hashStream H S).poll ⟨s0, h⟩ = (⟨s1, h⟩, .notReady) := by
        simp [hashStream, hpoll]
      have h1 : (splitHashStream H S).poll ⟨⟨s0, h⟩, true, Slot.pending⟩ =
          (⟨⟨s1, h⟩, true, Slot.pending⟩, .notReady) := by
        simp [splitHashStream, hh]
      exact EmitsTo.wait h1 (ih hu)

/-- Claim C1: for every cipher engine pair satisfying the engine interface
contract (the encrypt run succeeds; the decrypt engine is
chunking-invariant and inverts the encrypt engine's total transform — the
contract of a decrypt engine configured with the same key/IV,
spec sections 6 and 8), and every partitioning of an arbitrary byte
sequence into chunks, a Decrypt adapter stacked on an Encrypt adapter over
those chunks emits a chunk sequence whose concatenation is exactly the
original bytes, independent of chunk boundaries. -/
theorem claim1_cipher_roundtrip {γE γD : Type} (E : Engine γE) (D : Engine γD)
    (e0 : γE) (d0 : γD) (chunks : List (List Nat)) (out : List Nat)
    (h1 : E.processAll e0 chunks = some out)
    (h2 : ChunkInvariant D d0)
    (h3 : D.processAll d0 [out] = some chunks.flatten) :
    ∃ (douts : List (List Nat)) (t : CipherSt γD (CipherSt γE (List (Ev (List Nat))))),
      EmitsTo (cipherStream D (cipherStream E (scriptStream (List Nat))))
        ⟨⟨chunks.map Ev.chunk, false, e0⟩, false, d0⟩ douts t ∧
      douts.flatten = chunks.flatten := by
  simp only [Engine.processAll, Option.bind_eq_some, Option.map_eq_some'] at h1
  obtain ⟨⟨e1, eouts⟩, hpc, ⟨ef, efout⟩, hfin, hout⟩ := h1
  have henc := cipherStream_emitsTo (scriptStream_emitsTo chunks) hpc hfin
  have hinv : D.processAll d0 (eouts ++ [efout]) = some chunks.flatten := by
    rw [h2 (eouts ++ [efout]) [out] (by simpa using hout)]
    exact h3
  simp only [Engine.processAll, Option.bind_eq_some, Option.map_eq_some'] at hinv
  obtain ⟨⟨d1, douts1⟩, hdc, ⟨df, dfout⟩, hdfin, hdout⟩ := hinv
  exact ⟨douts1 ++ [dfout], ⟨⟨[], true, ef⟩, true, df⟩,
    cipherStream_emitsTo henc hdc hdfin, by simpa using hdout⟩

/-- Witness for C1: the identity engine pair on the chunking
`[[1, 2], [3]]`. -/
theorem claim1_cipher_roundtrip_witness :
    (idEngine.processAll () [[1, 2], [3]] = some [1, 2, 3]) ∧
    ∃ (douts : List (List Nat)) (t : CipherSt Unit (CipherSt Unit (List (Ev (List Nat))))),
      EmitsTo (cipherStream idEngine (cipherStream idEngine (scriptStream (List Nat))))
        ⟨⟨[[1, 2], [3]].map Ev.chunk, false, ()⟩, false, ()⟩ douts t ∧
      douts.flatten = [[1, 2], [3]].flatten :=
  ⟨by decide, claim1_cipher_roundtrip idEngine idEngine () () [[1, 2], [3]] [1, 2, 3]
    (by decide) idEngine_chunkInvariant (by decide)⟩

/-- Claim C3: a finalized cipher stream adapter answers every subsequent
pull with end-of-data, leaves its state untouched, and — since the result
is the same for every engine and every inner stream — invokes neither the
engine nor the inner producer, on that pull and (the state being unchanged)
on every later one. -/
theorem claim3_finalized_terminal {γ σ : Type} (E : Engine γ) (S : StreamM σ (List Nat))
    (s : CipherSt γ σ) (h : s.finalized = true) :
    (cipherStream E S).poll s = (s, PollRes.ready none) ∧
    ∀ n, pollIterate (cipherStream E S) n s = (s, PollRes.ready none) := by
  exact ⟨by simp [cipherStream, h], finalized_pollIterate E S s h⟩

/-- Witness for C3: a concrete finalized adapter state. -/
theorem claim3_finalized_terminal_witness :
    ((⟨[], true, ()⟩ : CipherSt Unit (List (Ev (List Nat)))).finalized = true) ∧
    ((cipherStream idEngine (scriptStream (List Nat))).poll ⟨[], true, ()⟩ =
      (⟨[], true, ()⟩, PollRes.ready none) ∧
    ∀ n, pollIterate (cipherStream idEngine (scriptStream (List Nat))) n ⟨[], true, ()⟩ =
      (⟨[], true, ()⟩, PollRes.ready none)) :=
  ⟨rfl, claim3_finalized_terminal idEngine (scriptStream (List Nat)) ⟨[], true, ()⟩ rfl⟩

/-- Claim C4: an active cipher stream adapter whose inner producer reports
not-ready reports not-ready itself, emits nothing, and leaves its
finalized flag and crypter state unchanged; the result is the same for
every engine, so no engine call occurs. -/
theorem claim4_backpressure_frame {γ σ : Type} (E : Engine γ) (S : StreamM σ (List Nat))
    (s : CipherSt γ σ) (s' : σ)
    (hf : s.finalized = false) (hp : S.poll s.inner = (s', PollRes.notReady)) :
    (cipherStream E S).poll s = (⟨s', false, s.crypter⟩, PollRes.notReady) := by
  simp [cipherStream, hf, hp]

/-- Witness for C4: a script stream whose next event is not-ready. -/
theorem claim4_backpressure_frame_witness :
    ((⟨[Ev.notReady], false, ()⟩ : CipherSt Unit (List (Ev (List Nat)))).finalized = false) ∧
    (cipherStream idEngine (scriptStream (List Nat))).poll ⟨[Ev.notReady], false, ()⟩ =
      (⟨[], false, ()⟩, PollRes.notReady) :=
  ⟨rfl, claim4_backpressure_frame idEngine (scriptStream (List Nat))
    ⟨[Ev.notReady], false, ()⟩ [] rfl rfl⟩

/-- Claim C5: when the inner producer of an active cipher stream adapter
signals end-of-data, the adapter transitions to finalized, flushes the
engine's trailing bytes via `finalize` — the flushed chunk fits the
block-size bound used for the output buffer, by the engine contract — and
emits that (possibly empty) chunk as its last item; the next pull signals
its own end-of-data. -/
theorem claim5_eof_finalize_emit {γ σ : Type} (E : Engine γ) (S : StreamM σ (List Nat))
    (s : CipherSt γ σ) (s' : σ) (cf : γ) (fout : List Nat)
    (hf : s.finalized = false)
    (hp : S.poll s.inner = (s', PollRes.ready none))
    (hfin : E.finalize s.crypter = some (cf, fout))
    (hwf : ∀ (c c' : γ) (o : List Nat), E.finalize c = some (c', o) → o.length ≤ E.blockSize) :
    (cipherStream E S).poll s = (⟨s', true, cf⟩, PollRes.ready (some fout)) ∧
    fout.length ≤ E.blockSize ∧
    (cipherStream E S).poll ⟨s', true, cf⟩ = (⟨s', true, cf⟩, PollRes.ready none) := by
  exact ⟨by simp [cipherStream, hf, hp, hfin], hwf _ _ _ hfin, by simp [cipherStream]⟩

/-- Witness for C5: the identity engine over an exhausted script. -/
theorem claim5_eof_finalize_emit_witness :
    (cipherStream idEngine (scriptStream (List Nat))).poll ⟨[], false, ()⟩ =
      (⟨[], true, ()⟩, PollRes.ready (some [])) ∧
    List.length ([] : List Nat) ≤ idEngine.blockSize ∧
    (cipherStream idEngine (scriptStream (List Nat))).poll ⟨[], true, ()⟩ =
      (⟨[], true, ()⟩, PollRes.ready none) :=
  claim5_eof_finalize_emit idEngine (scriptStream (List Nat)) ⟨[], false, ()⟩ [] () []
    rfl rfl rfl
    (by intro c c' o hfin
        have h := Option.some.inj hfin
        cases h
        decide)

/-- Claim C10: if `finalize` fails when the inner producer ends, the adapter
returns the error for that pull but has already set its finalized flag, so
every subsequent pull — under any engine and any inner stream — returns
end-of-data and never re-invokes the engine. -/
theorem claim10_finalize_error_terminal {γ σ : Type} (E : Engine γ) (S : StreamM σ (List Nat))
    (s : CipherSt γ σ) (s' : σ)
    (hf : s.finalized = false)
    (hp : S.poll s.inner = (s', PollRes.ready none))
    (hfin : E.finalize s.crypter = none) :
    (cipherStream E S).poll s = (⟨s', true, s.crypter⟩, PollRes.error) ∧
    ∀ (E2 : Engine γ) (S2 : StreamM σ (List Nat)) (n : Nat),
      pollIterate (cipherStream E2 S2) n ⟨s', true, s.crypter⟩ =
        (⟨s', true, s.crypter⟩, PollRes.ready none) := by
  exact ⟨by simp [cipherStream, hf, hp, hfin],
    fun E2 S2 n => finalized_pollIterate E2 S2 ⟨s', true, s.crypter⟩ rfl n⟩

/-- Witness for C10: an engine whose finalize fails, over an exhausted
script. -/
theorem claim10_finalize_error_terminal_witness :
    (cipherStream failFinEngine (scriptStream (List Nat))).poll ⟨[], false, ()⟩ =
      (⟨[], true, ()⟩, PollRes.error) ∧
    pollIterate (cipherStream failFinEngine (scriptStream (List Nat))) 0 ⟨[], true, ()⟩ =
      (⟨[], true, ()⟩, PollRes.ready none) :=
  ⟨(claim10_finalize_error_terminal failFinEngine (scriptStream (List Nat))
      ⟨[], false, ()⟩ [] rfl rfl rfl).1,
   (claim10_finalize_error_terminal failFinEngine (scriptStream (List Nat))
      ⟨[], false, ()⟩ [] rfl rfl rfl).2 failFinEngine (scriptStream (List Nat)) 0⟩

/-- Claim C6: the digest adapter forwards its inner producer's chunk
sequence and end-of-data signal byte-for-byte (given that the hasher
accepts every chunk, the engine-fault case being covered separately by the
spec's error taxonomy), with the sole side effect that each yielded chunk
is absorbed into the digest accumulator; not-ready polls are also forwarded
with no side effect. -/
theorem claim6_hash_passthrough {η σ : Type} (H : HEngine η) (S : StreamM σ (List Nat))
    {s t : σ} {cs : List (List Nat)} {h h' : η}
    (he : EmitsTo S s cs t)
    (hu : H.foldUpdate h cs = some h') :
    EmitsTo (hashStream H S) ⟨s, h⟩ cs ⟨t, h'⟩ ∧
    ∀ (si s2 : σ) (hi : η), S.poll si = (s2, PollRes.notReady) →
      (hashStream H S).poll ⟨si, hi⟩ = (⟨s2, hi⟩, PollRes.notReady) := by
  refine ⟨hashStream_emitsTo he hu, ?_⟩
  intro si s2 hi hp
  simp [hashStream, hp]

/-- Witness for C6: the accumulating digest engine over the script
`[[1], [2]]`. -/
theorem claim6_hash_passthrough_witness :
    EmitsTo (hashStream accHEngine (scriptStream (List Nat)))
      ⟨[[1], [2]].map Ev.chunk, []⟩ [[1], [2]] ⟨[], [1, 2]⟩ ∧
    ∀ (si s2 : List (Ev (List Nat))) (hi : List Nat),
      (scriptStream (List Nat)).poll si = (s2, PollRes.notReady) →
      (hashStream accHEngine (scriptStream (List Nat))).poll ⟨si, hi⟩ =
        (⟨s2, hi⟩, PollRes.notReady) :=
  claim6_hash_passthrough accHEngine (scriptStream (List Nat))
    (scriptStream_emitsTo [[1], [2]]) (by decide)

/-- Claim C7: if the computing half of a split pair is dropped while it
still holds the oneshot sender (that is, before it reached end-of-data),
the receiving half resolves immediately to a successful "no digest"
(`Ready(None)`) — it neither reports a fault nor stays pending forever. -/
theorem claim7_split_drop_resolves_none {η σ : Type} (s : SplitHashSt η σ)
    (h : s.sender = true) :
    splitDigestPoll (dropSplitHash s) = FPoll.ready none ∧
    splitDigestPoll (dropSplitHash s) ≠ FPoll.error ∧
    splitDigestPoll (dropSplitHash s) ≠ FPoll.notReady := by
  refine ⟨?_, ?_, ?_⟩ <;> simp [dropSplitHash, h, splitDigestPoll]

/-- Witness for C7: a freshly split pair, computing half dropped at once. -/
theorem claim7_split_drop_resolves_none_witness :
    splitDigestPoll (dropSplitHash
      (⟨⟨([] : List (Ev (List Nat))), ([] : List Nat)⟩, true, Slot.pending⟩ :
        SplitHashSt (List Nat) (List (Ev (List Nat))))) = FPoll.ready none ∧
    splitDigestPoll (dropSplitHash
      (⟨⟨([] : List (Ev (List Nat))), ([] : List Nat)⟩, true, Slot.pending⟩ :
        SplitHashSt (List Nat) (List (Ev (List Nat))))) ≠ FPoll.error ∧
    splitDigestPoll (dropSplitHash
      (⟨⟨([] : List (Ev (List Nat))), ([] : List Nat)⟩, true, Slot.pending⟩ :
        SplitHashSt (List Nat) (List (Ev (List Nat))))) ≠ FPoll.notReady :=
  claim7_split_drop_resolves_none ⟨⟨[], []⟩, true, Slot.pending⟩ rfl

/-- Claim C8: when the computing half's inner producer ends, the computing
half performs the final digest retrieval and delivers its result — success
or recorded failure — into the shared slot as part of signaling its own
end-of-data; after the computing half is drained, the receiving half
resolves to the same digest a non-split digest adapter computes over the
same input, or to a fault if retrieval failed. -/
theorem claim8_split_resolution {η σ : Type} (H : HEngine η) (S : StreamM σ (List Nat))
    {s t : σ} {cs : List (List Nat)} {h h' : η}
    (he : EmitsTo S s cs t)
    (hu : H.foldUpdate h cs = some h') :
    ∃ fin : SplitHashSt η σ,
      EmitsTo (splitHashStream H S) ⟨⟨s, h⟩, true, Slot.pending⟩ cs fin ∧
      fin.sender = false ∧
      EmitsTo (hashStream H S) ⟨s, h⟩ cs ⟨t, h'⟩ ∧
      ((∃ d hr, H.finish h' = some (d, hr) ∧
          fin.slot = Slot.sent (Except.ok d) ∧
          splitDigestPoll fin.slot = FPoll.ready (some d) ∧
          (hashDigest H ⟨t, h'⟩).map Prod.fst = some d) ∨
       (H.finish h' = none ∧ fin.slot = Slot.sent (Except.error ()) ∧
          splitDigestPoll fin.slot = FPoll.error)) := by
  refine ⟨splitHashFinal H t h', splitHashStream_emitsTo he hu, ?_,
    hashStream_emitsTo he hu, ?_⟩
  · cases hfin : H.finish h' with
    | none => simp [splitHashFinal, hfin]
    | some p => obtain ⟨d, hr⟩ := p; simp [splitHashFinal, hfin]
  · cases hfin : H.finish h' with
    | none =>
        right
        refine ⟨rfl, ?_, ?_⟩ <;> simp [splitHashFinal, hfin, splitDigestPoll]
    | some p =>
        obtain ⟨d, hr⟩ := p
        left
        exact ⟨d, hr, rfl, by simp [splitHashFinal, hfin],
          by simp [splitHashFinal, hfin, splitDigestPoll],
          by simp [hashDigest, hfin]⟩

/-- Witness for C8: the accumulating digest engine over the script
`[[1], [2]]`; the slot receives the digest `[1, 2]`. -/
theorem claim8_split_resolution_witness :
    ∃ fin : SplitHashSt (List Nat) (List (Ev (List Nat))),
      EmitsTo (splitHashStream accHEngine (scriptStream (List Nat)))
        ⟨⟨[[1], [2]].map Ev.chunk, []⟩, true, Slot.pending⟩ [[1], [2]] fin ∧
      fin.sender = false ∧
      EmitsTo (hashStream accHEngine (scriptStream (List Nat)))
        ⟨[[1], [2]].map Ev.chunk, []⟩ [[1], [2]] ⟨[], [1, 2]⟩ ∧
      ((∃ d hr, accHEngine.finish [1, 2] = some (d, hr) ∧
          fin.slot = Slot.sent (Except.ok d) ∧
          splitDigestPoll fin.slot = FPoll.ready (some d) ∧
          (hashDigest accHEngine
            (⟨[], [1, 2]⟩ : HashSt (List Nat) (List (Ev (List Nat))))).map Prod.fst =
              some d) ∨
       (accHEngine.finish [1, 2] = none ∧ fin.slot = Slot.sent (Except.error ()) ∧
          splitDigestPoll fin.slot = FPoll.error)) :=
  claim8_split_resolution accHEngine (scriptStream (List Nat))
    (scriptStream_emitsTo [[1], [2]]) (by decide)

/-- Claim C9: `random_bytes(n)` is a pure constructor whose result is in the
idle state — no task reaches the worker pool until the future is first
driven; the first drive submits exactly one task (of the requested size) to
the pool, and a successful resolution carries exactly `n` bytes, for every
`n` including `n = 0`. -/
theorem claim9_random_bytes_size (fill : List Nat → Option (List Nat)) (n : Nat)
    (w : RWorld)
    (hlen : ∀ b r, fill b = some r → r.length = b.length) :
    (Generator.random_bytes n).state = RState.idle ∧
    (RandomBytes.poll fill (Generator.random_bytes n) w).2.1.submitted =
      w.submitted ++ [n] ∧
    ∀ bs, (RandomBytes.poll fill (Generator.random_bytes n) w).2.2 = FPoll.ready bs →
      bs.length = n := by
  refine ⟨rfl, ?_, ?_⟩
  · simp [RandomBytes.poll, Generator.random_bytes]
  · intro bs hbs
    simp only [RandomBytes.poll, Generator.random_bytes, taskInnerPoll] at hbs
    cases hf : fill (List.replicate n 0) with
    | none => rw [hf] at hbs; simp at hbs
    | some buf =>
        rw [hf] at hbs
        simp only [FPoll.ready.injEq] at hbs
        subst hbs
        have hb := hlen _ _ hf
        simp [List.length_take, hb]

/-- Witness for C9: the identity random source at size zero. -/
theorem claim9_random_bytes_size_witness :
    (Generator.random_bytes 0).state = RState.idle ∧
    (RandomBytes.poll (fun b => some b) (Generator.random_bytes 0) ⟨[]⟩).2.1.submitted =
      [] ++ [0] ∧
    ∀ bs, (RandomBytes.poll (fun b => some b) (Generator.random_bytes 0) ⟨[]⟩).2.2 =
        FPoll.ready bs → bs.length = 0 :=
  claim9_random_bytes_size (fun b => some b) 0 ⟨[]⟩ (fun b r hh => by cases hh; rfl)

/-- Counterexample to claim C2 as stated: on a construction-time failure of
`Encrypt::new`, the returned value is the bare error and is identical for
two different inner producers, so no recovery function can hand the
original inner producer back to the caller — the construction result
carries no trace of it. -/
theorem claim2_counterexample :
    ¬ ∃ recover : Except Unit (CipherSt Unit Nat) → Option Nat,
        ∀ inner : Nat,
          recover (Encrypt.new failCrypterNew (Config.new Algorithm.aes128Ecb) inner) =
            some inner := by
  rintro ⟨recover, hrec⟩
  have h0 := hrec 0
  have h1 := hrec 1
  have he : Encrypt.new failCrypterNew (Config.new Algorithm.aes128Ecb) (0 : Nat) =
      Encrypt.new failCrypterNew (Config.new Algorithm.aes128Ecb) (1 : Nat) := rfl
  rw [he, h1] at h0
  simp at h0

/-- Claim C2 as amended: when the engine rejects the key/IV material at
construction time, the failure alone is returned to the caller; the inner
producer was moved into the constructor and is not part of the result (the
result is the same for every inner producer), so the caller loses
ownership of it. -/
theorem claim2_construction_failure_drops_inner {γ σ : Type}
    (crypterNew : Algorithm → Mode → List Nat → Option (List Nat) → Except Unit γ)
    (cfg : Config) (inner : σ) (mode : Mode) (e : Unit)
    (h : crypterNew cfg.algo mode (cfg.key.take cfg.algo.key_len)
        (cfg.algo.iv_len.map fun n => cfg.iv.take n) = .error e) :
    Config.stream crypterNew cfg inner mode = .error e ∧
    ∀ inner2 : σ,
      Config.stream crypterNew cfg inner2 mode =
        Config.stream crypterNew cfg inner mode := by
  constructor
  · simp [Config.stream, h]
  · intro inner2
    simp [Config.stream, h]

/-- Witness for the amended C2: a crypter constructor that rejects the
configuration. -/
theorem claim2_construction_failure_drops_inner_witness :
    Config.stream failCrypterNew (Config.new Algorithm.aes128Ecb) (5 : Nat) Mode.encrypt =
      .error () ∧
    ∀ inner2 : Nat,
      Config.stream failCrypterNew (Config.new Algorithm.aes128Ecb) inner2 Mode.encrypt =
        Config.stream failCrypterNew (Config.new Algorithm.aes128Ecb) (5 : Nat)
          Mode.encrypt :=
  claim2_construction_failure_drops_inner failCrypterNew (Config.new Algorithm.aes128Ecb)
    5 Mode.encrypt () rfl

end FuturesCrypto
